import Mathlib

/- Shallow embedding of useful_rdkit_utils/ring_systems.py.

   Molecules are modelled as explicit atom and bond lists.  Every attribute
   that the decomposition pipeline reads or writes (atomic number, isotope,
   ring-membership flags, bond order, bond stereo, the transient boolean
   "protected" property, the atomLabel display property) is a field of the
   model.  The RDKit capabilities that the module merely calls out to
   (Chem.FragmentOnBonds, Chem.SanitizeMol, Chem.GetMolFrags,
   Chem.RemoveAllHs, Chem.MolToSmiles, SMILES parsing) are parameters,
   collected in the Externals structure.  Substructure matching is embedded
   concretely for the two fixed SMARTS patterns the module uses.  Fallible
   operations (Python exceptions such as an AttributeError on a None
   molecule, an unset bond property, or a sanitization failure) are
   modelled with Option: none is a raised exception. -/

inductive BondType where
  | single | double | triple | aromatic | other
  deriving DecidableEq

inductive BondStereo where
  | stereoNone | stereoAny | stereoZ | stereoE | stereoCis | stereoTrans
  deriving DecidableEq

/-- An atom of the molecular graph.  prot-style display properties that the
code touches are carried explicitly; atomLabel models the "atomLabel"
string property (none when the property is unset). -/
structure Atom where
  atomicNum : Nat
  isotope : Nat
  inRing : Bool
  atomLabel : Option String
  deriving DecidableEq

/-- A bond of the molecular graph.  beginAtom/endAtom are atom indices.
prot models the boolean property "protected": none when the property has
never been set (reading it then raises in Python). -/
structure Bond where
  beginAtom : Nat
  endAtom : Nat
  btype : BondType
  inRing : Bool
  stereo : BondStereo
  prot : Option Bool
  deriving DecidableEq

/-- A molecule: atom list plus bond list.  Bond indices (Bond.GetIdx) are
positions in the bonds list; atom indices are positions in the atoms
list. -/
structure Mol where
  atoms : List Atom
  bonds : List Bond
  deriving DecidableEq

/-- The RDKit capabilities the module calls but does not implement:
bond fragmentation with dummy-atom insertion, sanitization (which can
fail, raising), connected-component splitting, explicit-hydrogen removal,
and canonical SMILES serialization. -/
structure Externals where
  fragmentOnBonds : Mol → List Nat → Mol
  sanitizeMol : Mol → Option Mol
  getMolFrags : Mol → List Mol
  removeAllHs : Mol → Mol
  molToSmiles : Mol → String

/-- Does bond b join atoms i and j (in either direction)?  This is the
test behind mol.GetBondBetweenAtoms(i, j). -/
def connects (b : Bond) (i j : Nat) : Bool :=
  (b.beginAtom == i && b.endAtom == j) || (b.beginAtom == j && b.endAtom == i)

/-- Atom lookup combined with a predicate: true when atom index i exists
and satisfies p. -/
def atomSat (mol : Mol) (i : Nat) (p : Atom → Bool) : Bool :=
  match mol.atoms.get? i with
  | some a => p a
  | none => false

/-- First atom of the SMARTS pattern [#6R,#18R]=[OR0,SR0,CR0,NR0] from
RingSystemFinder.__init__ (ring_db_pat): an in-ring atom of atomic number
6 or 18. -/
def ringDbFirst (a : Atom) : Bool :=
  a.inRing && (a.atomicNum == 6 || a.atomicNum == 18)

/-- Second atom of the SMARTS pattern [#6R,#18R]=[OR0,SR0,CR0,NR0]: an
oxygen, sulfur, carbon or nitrogen in no ring.  (The aliphatic-only
reading of O/S/C/N is subsumed by R0, since an aromatic atom is always a
ring atom.) -/
def ringDbSecond (a : Atom) : Bool :=
  !a.inRing && (a.atomicNum == 8 || a.atomicNum == 16 || a.atomicNum == 6 || a.atomicNum == 7)

/-- mol.GetSubstructMatches(self.ring_db_pat): every atom-index pair
(i, j) such that some double bond joins i and j, atom i satisfies the
first pattern atom and atom j the second.  The two roles are mutually
exclusive (in-ring versus not-in-ring), so each bond contributes at most
one match, as with RDKit's default uniquify=True. -/
def ringDbMatches (mol : Mol) : List (Nat × Nat) :=
  mol.bonds.filterMap fun b =>
    if b.btype = BondType.double then
      if atomSat mol b.beginAtom ringDbFirst && atomSat mol b.endAtom ringDbSecond then
        some (b.beginAtom, b.endAtom)
      else if atomSat mol b.endAtom ringDbFirst && atomSat mol b.beginAtom ringDbSecond then
        some (b.endAtom, b.beginAtom)
      else
        none
    else
      none

/-- The first loop of RingSystemFinder.tag_bonds_to_preserve: set every
bond's "protected" property to False. -/
def initProt (bonds : List Bond) : List Bond :=
  bonds.map fun b => { b with prot := some false }

/-- One iteration of the second loop of tag_bonds_to_preserve: set the
"protected" property of the bond between atoms i and j to True. -/
def setProt (bonds : List Bond) (i j : Nat) : List Bond :=
  bonds.map fun b => if connects b i j then { b with prot := some true } else b

/-- RingSystemFinder.tag_bonds_to_preserve: initialize every bond's
"protected" property to False, then set it to True on the bond between
the two atoms of every ring_db_pat match. -/
def tag_bonds_to_preserve (mol : Mol) : Mol :=
  { mol with
    bonds := (ringDbMatches mol).foldl (fun bs m => setProt bs m.1 m.2) (initProt mol.bonds) }

/-- The bond test inside RingSystemFinder.cleave_linker_bonds, with
Python's short-circuit evaluation: an in-ring bond is rejected without
reading "protected"; otherwise reading an unset "protected" property
raises (none); otherwise keep the bond when it is unprotected and of
single bond order. -/
def bondKeep (b : Bond) : Option Bool :=
  if b.inRing then some false
  else
    match b.prot with
    | none => none
    | some p => some (!p && (b.btype == BondType.single))

/-- The frag_bond_list accumulation loop of cleave_linker_bonds; i is the
index of the first bond of the remaining list. -/
def fragBondListAux (i : Nat) : List Bond → Option (List Nat)
  | [] => some []
  | b :: rest =>
    match bondKeep b with
    | none => none
    | some keep =>
      match fragBondListAux (i + 1) rest with
      | none => none
      | some restL => some (if keep then i :: restL else restL)

/-- The cut-bond set of RingSystemFinder.cleave_linker_bonds: indices of
every bond that is not in a ring, not protected, and single. -/
def fragBondList (mol : Mol) : Option (List Nat) :=
  fragBondListAux 0 mol.bonds

/-- RingSystemFinder.cleave_linker_bonds: when the cut set is nonempty,
fragment on it and sanitize (sanitization failure propagates); when it is
empty, return the input molecule itself. -/
def cleave_linker_bonds (E : Externals) (mol : Mol) : Option Mol :=
  match fragBondList mol with
  | none => none
  | some l => if l.length ≠ 0 then E.sanitizeMol (E.fragmentOnBonds mol l) else some mol

/-- frag.HasSubstructMatch(self.ring_atom_pat) with ring_atom_pat = [R]:
does the fragment contain a ring atom? -/
def hasRingAtom (m : Mol) : Bool :=
  m.atoms.any (·.inRing)

/-- The dummy-atom loop of RingSystemFinder.cleanup_fragments (lines
59-65): for every atom of atomic number 0, set the atomLabel property to
"R" when keep_dummy, else set its atomic number to 1; in either case set
its isotope to 0 (SetIsotope(0) sits outside the keep_dummy branch). -/
def process_dummy_atoms (keep_dummy : Bool) (m : Mol) : Mol :=
  { m with
    atoms := m.atoms.map fun a =>
      if a.atomicNum == 0 then
        if keep_dummy then { a with atomLabel := some "R", isotope := 0 }
        else { a with atomicNum := 1, isotope := 0 }
      else a }

/-- atom.GetDegree(): the number of bonds incident to atom index i. -/
def degree (m : Mol) (i : Nat) : Nat :=
  m.bonds.countP fun b => b.beginAtom == i || b.endAtom == i

/-- RingSystemFinder.fix_bond_stereo: clear the stereo designation of
every double bond one of whose end atoms has degree 1. -/
def fix_bond_stereo (m : Mol) : Mol :=
  { m with
    bonds := m.bonds.map fun b =>
      if b.btype = BondType.double ∧ (degree m b.beginAtom = 1 ∨ degree m b.endAtom = 1) then
        { b with stereo := BondStereo.stereoNone }
      else b }

/-- RingSystemFinder.cleanup_fragments: split into connected components,
keep the components holding a ring atom, and for each one resolve the
dummy atoms, remove explicit hydrogens, and repair double-bond stereo. -/
def cleanup_fragments (E : Externals) (keep_dummy : Bool) (mol : Mol) : List Mol :=
  ((E.getMolFrags mol).filter hasRingAtom).map fun frag =>
    fix_bond_stereo (E.removeAllHs (process_dummy_atoms keep_dummy frag))

/-- RingSystemFinder.find_ring_systems together with its effect on the
caller's molecule.  The first component is the returned value: the list of
ring-system molecules when as_mols, else their SMILES strings.  The second
component is the state of the input molecule object after the call: of the
pipeline stages only tag_bonds_to_preserve writes to the caller's object
(FragmentOnBonds and GetMolFrags both return fresh molecules), so the
input ends up exactly tagged. -/
def find_ring_systems_run (E : Externals) (mol : Mol) (keep_dummy as_mols : Bool) :
    Option (Sum (List Mol) (List String)) × Mol :=
  let tagged := tag_bonds_to_preserve mol
  (match cleave_linker_bonds E tagged with
   | none => none
   | some fm =>
     let out := cleanup_fragments E keep_dummy fm
     some (if as_mols then Sum.inl out else Sum.inr (out.map E.molToSmiles)),
   tagged)

/-- The return value of RingSystemFinder.find_ring_systems. -/
def find_ring_systems (E : Externals) (mol : Mol) (keep_dummy as_mols : Bool) :
    Option (Sum (List Mol) (List String)) :=
  (find_ring_systems_run E mol keep_dummy as_mols).1

/-- The ring-system molecules produced by the pipeline before the
as_mols serialization choice of find_ring_systems. -/
def ring_systems_pipeline (E : Externals) (mol : Mol) (keep_dummy : Bool) :
    Option (List Mol) :=
  match cleave_linker_bonds E (tag_bonds_to_preserve mol) with
  | none => none
  | some fm => some (cleanup_fragments E keep_dummy fm)

/-- find_ring_systems called at its default flags (keep_dummy and
as_mols both false), as every consumer in the module calls it: the
returned value is then always the SMILES branch, extracted here; none is
a raised exception. -/
def ring_system_texts (E : Externals) (mol : Mol) : Option (List String) :=
  match find_ring_systems E mol false false with
  | some (Sum.inr ss) => some ss
  | _ => none

/-- The per-entry loop of create_ring_dictionary: parse each SMILES and
extend the accumulated list with find_ring_systems of the parsed molecule
at default flags.  A failed parse yields None, on which find_ring_systems
raises (None.GetBonds() is an AttributeError), aborting the whole loop:
hence none for the batch. -/
def build_ring_list (E : Externals) (parse : String → Option Mol) :
    List String → Option (List String)
  | [] => some []
  | smi :: rest =>
    (parse smi).bind fun mol =>
      (ring_system_texts E mol).bind fun ss =>
        (build_ring_list E parse rest).map fun restL => ss ++ restL

/-- pd.Series(...).value_counts() over the accumulated ring-system SMILES:
each distinct string with its number of occurrences (the ordering of the
persisted CSV is immaterial here). -/
def freqTable (l : List String) : List (String × Nat) :=
  l.dedup.map fun s => (s, l.count s)

/-- create_ring_dictionary, up to the CSV I/O glue: build the ring-system
list over the corpus and tabulate occurrence counts. -/
def create_ring_dictionary (E : Externals) (parse : String → Option Mol)
    (corpus : List String) : Option (List (String × Nat)) :=
  (build_ring_list E parse corpus).map freqTable

/-- self.ring_dict.get(x) or 0: a missing key gives 0, and Python's
falsy-or maps a stored 0 to 0 and any other stored value to itself. -/
def dictGet (d : List (String × Int)) (x : String) : Int :=
  match List.lookup x d with
  | none => 0
  | some v => if v = 0 then 0 else v

/-- RingSystemLookup.process_mol: a falsy (None) molecule yields the empty
list; otherwise each ring-system SMILES from find_ring_systems at default
flags is paired with its ring_dict count, absent keys defaulting to 0.  A
sanitization failure inside find_ring_systems propagates (none). -/
def process_mol (E : Externals) (d : List (String × Int)) (molOpt : Option Mol) :
    Option (List (String × Int)) :=
  match molOpt with
  | none => some []
  | some mol => (ring_system_texts E mol).map fun ss => ss.map fun x => (x, dictGet d x)

/-- RingSystemLookup.process_smiles: parse, then process_mol. -/
def process_smiles (E : Externals) (parse : String → Option Mol)
    (d : List (String × Int)) (smi : String) : Option (List (String × Int)) :=
  process_mol E d (parse smi)

/-- Python's min over a list known to be nonempty (the empty case is
unreachable at its call site). -/
def pyMin : List Int → Int
  | [] => 0
  | x :: xs => xs.foldl min x

/-- The per-entry reduction of test_ring_system_lookup (lines 178-184):
the minimum count over the ring systems found, or the sentinel -1 when no
ring system was found. -/
def min_count (E : Externals) (parse : String → Option Mol)
    (d : List (String × Int)) (smi : String) : Option Int :=
  (process_smiles E parse d smi).map fun fl =>
    if fl.length ≠ 0 then pyMin (fl.map Prod.snd) else -1

/-- A bond with its transient "protected" property forgotten; used to
state which part of a molecule a pipeline stage may change. -/
def eraseProt (b : Bond) : Bond :=
  { b with prot := none }

/- ### Helper lemmas about the embedded definitions -/

lemma mol_ext {m₁ m₂ : Mol} (ha : m₁.atoms = m₂.atoms) (hb : m₁.bonds = m₂.bonds) :
    m₁ = m₂ := by
  cases m₁; cases m₂; simp_all

lemma connects_protUpdate (b : Bond) (o : Option Bool) (i j : Nat) :
    connects { b with prot := o } i j = connects b i j := rfl

lemma setProt_map_protSet (bs : List Bond) (p : Bond → Bool) (i j : Nat) :
    setProt (bs.map fun b => { b with prot := some (p b) }) i j =
      bs.map fun b => { b with prot := some (p b || connects b i j) } := by
  unfold setProt
  rw [List.map_map]
  refine List.map_congr_left ?_
  intro b _
  show (if connects { b with prot := some (p b) } i j then _ else _) = _
  rw [connects_protUpdate]
  by_cases h : connects b i j
  · simp [h]
  · simp [h]

lemma foldl_setProt (ms : List (Nat × Nat)) :
    ∀ (bs : List Bond) (p : Bond → Bool),
      ms.foldl (fun acc m => setProt acc m.1 m.2)
          (bs.map fun b => { b with prot := some (p b) }) =
        bs.map fun b => { b with prot := some (p b || ms.any fun m => connects b m.1 m.2) } := by
  induction ms with
  | nil =>
    intro bs p
    simp
  | cons m ms ih =>
    intro bs p
    rw [List.foldl_cons, setProt_map_protSet, ih bs (fun b => p b || connects b m.1 m.2)]
    refine List.map_congr_left ?_
    intro b _
    simp [Bool.or_assoc]

lemma tag_bonds (mol : Mol) :
    (tag_bonds_to_preserve mol).bonds =
      mol.bonds.map fun b =>
        { b with prot := some ((ringDbMatches mol).any fun m => connects b m.1 m.2) } := by
  show (ringDbMatches mol).foldl _ (initProt mol.bonds) = _
  have h0 : initProt mol.bonds = mol.bonds.map fun b => { b with prot := some false } := rfl
  rw [h0]
  have := foldl_setProt (ringDbMatches mol) mol.bonds (fun _ => false)
  simpa using this

lemma tag_atoms (mol : Mol) : (tag_bonds_to_preserve mol).atoms = mol.atoms := rfl

lemma ringDbMatches_tag (mol : Mol) :
    ringDbMatches (tag_bonds_to_preserve mol) = ringDbMatches mol := by
  unfold ringDbMatches
  rw [tag_bonds mol, List.filterMap_map]
  refine List.filterMap_congr ?_
  intro b _
  rfl

lemma tag_idem (mol : Mol) :
    tag_bonds_to_preserve (tag_bonds_to_preserve mol) = tag_bonds_to_preserve mol := by
  refine mol_ext rfl ?_
  rw [tag_bonds (tag_bonds_to_preserve mol), ringDbMatches_tag, tag_bonds mol, List.map_map]
  refine List.map_congr_left ?_
  intro b _
  rfl

lemma bondKeep_true_iff (b : Bond) :
    bondKeep b = some true ↔
      b.inRing = false ∧ b.prot = some false ∧ b.btype = BondType.single := by
  unfold bondKeep
  cases hr : b.inRing
  · cases hp : b.prot with
    | none => simp
    | some p => cases p <;> simp
  · simp

lemma bondKeep_isSome_of_prot (b : Bond) (h : b.prot.isSome = true) :
    (bondKeep b).isSome = true := by
  unfold bondKeep
  cases hr : b.inRing
  · cases hp : b.prot with
    | none => rw [hp] at h; cases h
    | some p => simp
  · simp

lemma fragAux_mem :
    ∀ (l : List Bond) (i : Nat) (L : List Nat),
      fragBondListAux i l = some L →
      ∀ k, k ∈ L ↔ ∃ j b, l.get? j = some b ∧ k = i + j ∧ bondKeep b = some true := by
  intro l
  induction l with
  | nil =>
    intro i L hL k
    simp only [fragBondListAux, Option.some.injEq] at hL
    subst hL
    simp
  | cons b rest ih =>
    intro i L hL k
    cases hk : bondKeep b with
    | none => simp [fragBondListAux, hk] at hL
    | some keep =>
      cases hr : fragBondListAux (i + 1) rest with
      | none => simp [fragBondListAux, hk, hr] at hL
      | some restL =>
        simp only [fragBondListAux, hk, hr, Option.some.injEq] at hL
        have hmem := ih (i + 1) restL hr
        constructor
        · intro hkL
          cases keep with
          | true =>
            subst hL
            rcases List.mem_cons.mp hkL with hki | hkrest
            · exact ⟨0, b, rfl, by omega, by rw [hk]⟩
            · rcases (hmem k).mp hkrest with ⟨j, b', hg, hkk, hkeep⟩
              exact ⟨j + 1, b', by simpa using hg, by omega, hkeep⟩
          | false =>
            subst hL
            rcases (hmem k).mp hkL with ⟨j, b', hg, hkk, hkeep⟩
            exact ⟨j + 1, b', by simpa using hg, by omega, hkeep⟩
        · rintro ⟨j, b', hg, hkk, hkeep⟩
          cases j with
          | zero =>
            have hb' : b' = b := by simpa using hg.symm
            subst hb'
            rw [hk] at hkeep
            have hkt : keep = true := by simpa using hkeep
            subst hkt
            subst hL
            exact List.mem_cons.mpr (Or.inl (by omega))
          | succ j' =>
            have hg' : rest.get? j' = some b' := by simpa using hg
            have hkrest : k ∈ restL := (hmem k).mpr ⟨j', b', hg', by omega, hkeep⟩
            cases keep with
            | true =>
              subst hL
              exact List.mem_cons.mpr (Or.inr hkrest)
            | false =>
              subst hL
              exact hkrest

lemma fragAux_total :
    ∀ (l : List Bond), (∀ b ∈ l, (bondKeep b).isSome = true) →
      ∀ i, ∃ L, fragBondListAux i l = some L := by
  intro l
  induction l with
  | nil => exact fun _ i => ⟨[], rfl⟩
  | cons b rest ih =>
    intro h i
    have hb : (bondKeep b).isSome = true := h b (List.mem_cons_self b rest)
    cases hk : bondKeep b with
    | none => rw [hk] at hb; cases hb
    | some keep =>
      obtain ⟨L, hL⟩ := ih (fun b' hb' => h b' (List.mem_cons_of_mem _ hb')) (i + 1)
      exact ⟨if keep then i :: L else L, by simp [fragBondListAux, hk, hL]⟩

lemma atomSat_eq {mol : Mol} {i : Nat} {a : Atom} (p : Atom → Bool)
    (hg : mol.atoms.get? i = some a) : atomSat mol i p = p a := by
  unfold atomSat
  rw [hg]

lemma atomSat_iff (mol : Mol) (i : Nat) (p : Atom → Bool) :
    atomSat mol i p = true ↔ ∃ a, mol.atoms.get? i = some a ∧ p a = true := by
  unfold atomSat
  cases h : mol.atoms.get? i <;> simp

lemma ringDbFirst_iff (a : Atom) :
    ringDbFirst a = true ↔ a.inRing = true ∧ (a.atomicNum = 6 ∨ a.atomicNum = 18) := by
  simp [ringDbFirst]

lemma ringDbSecond_iff (a : Atom) :
    ringDbSecond a = true ↔
      a.inRing = false ∧
        (a.atomicNum = 8 ∨ a.atomicNum = 16 ∨ a.atomicNum = 6 ∨ a.atomicNum = 7) := by
  simp [ringDbSecond, or_assoc]

lemma ringDbMatches_mem (mol : Mol) (i j : Nat) :
    (i, j) ∈ ringDbMatches mol ↔
      ∃ b, b ∈ mol.bonds ∧ b.btype = BondType.double ∧
        ((b.beginAtom = i ∧ b.endAtom = j) ∨ (b.beginAtom = j ∧ b.endAtom = i)) ∧
        (∃ a, mol.atoms.get? i = some a ∧ a.inRing = true ∧
          (a.atomicNum = 6 ∨ a.atomicNum = 18)) ∧
        (∃ a, mol.atoms.get? j = some a ∧ a.inRing = false ∧
          (a.atomicNum = 8 ∨ a.atomicNum = 16 ∨ a.atomicNum = 6 ∨ a.atomicNum = 7)) := by
  constructor
  · intro h
    rw [ringDbMatches, List.mem_filterMap] at h
    obtain ⟨b, hb, hfb⟩ := h
    by_cases hd : b.btype = BondType.double
    · rw [if_pos hd] at hfb
      by_cases h1 : (atomSat mol b.beginAtom ringDbFirst && atomSat mol b.endAtom ringDbSecond)
                      = true
      · rw [if_pos h1] at hfb
        obtain ⟨hA, hB⟩ := Bool.and_eq_true_iff.mp h1
        have hij : b.beginAtom = i ∧ b.endAtom = j := by
          have := Option.some.inj hfb
          exact ⟨congrArg Prod.fst this, congrArg Prod.snd this⟩
        obtain ⟨hbi, hbj⟩ := hij
        rw [hbi] at hA
        rw [hbj] at hB
        obtain ⟨ai, hai, hFi⟩ := (atomSat_iff mol i ringDbFirst).mp hA
        obtain ⟨aj, haj, hSj⟩ := (atomSat_iff mol j ringDbSecond).mp hB
        obtain ⟨hr1, hn1⟩ := (ringDbFirst_iff ai).mp hFi
        obtain ⟨hr2, hn2⟩ := (ringDbSecond_iff aj).mp hSj
        exact ⟨b, hb, hd, Or.inl ⟨hbi, hbj⟩, ⟨ai, hai, hr1, hn1⟩, ⟨aj, haj, hr2, hn2⟩⟩
      · rw [if_neg h1] at hfb
        by_cases h2 : (atomSat mol b.endAtom ringDbFirst && atomSat mol b.beginAtom ringDbSecond)
                        = true
        · rw [if_pos h2] at hfb
          obtain ⟨hA, hB⟩ := Bool.and_eq_true_iff.mp h2
          have hij : b.endAtom = i ∧ b.beginAtom = j := by
            have := Option.some.inj hfb
            exact ⟨congrArg Prod.fst this, congrArg Prod.snd this⟩
          obtain ⟨hbi, hbj⟩ := hij
          rw [hbi] at hA
          rw [hbj] at hB
          obtain ⟨ai, hai, hFi⟩ := (atomSat_iff mol i ringDbFirst).mp hA
          obtain ⟨aj, haj, hSj⟩ := (atomSat_iff mol j ringDbSecond).mp hB
          obtain ⟨hr1, hn1⟩ := (ringDbFirst_iff ai).mp hFi
          obtain ⟨hr2, hn2⟩ := (ringDbSecond_iff aj).mp hSj
          exact ⟨b, hb, hd, Or.inr ⟨hbj, hbi⟩, ⟨ai, hai, hr1, hn1⟩, ⟨aj, haj, hr2, hn2⟩⟩
        · rw [if_neg h2] at hfb
          cases hfb
    · rw [if_neg hd] at hfb
      cases hfb
  · rintro ⟨b, hb, hd, hdir, ⟨ai, hai, hairing, hainum⟩, ⟨aj, haj, hajring, hajnum⟩⟩
    rw [ringDbMatches, List.mem_filterMap]
    refine ⟨b, hb, ?_⟩
    rw [if_pos hd]
    have hFi : atomSat mol i ringDbFirst = true := by
      rw [atomSat_eq ringDbFirst hai]
      exact (ringDbFirst_iff ai).mpr ⟨hairing, hainum⟩
    have hSj : atomSat mol j ringDbSecond = true := by
      rw [atomSat_eq ringDbSecond haj]
      exact (ringDbSecond_iff aj).mpr ⟨hajring, hajnum⟩
    rcases hdir with ⟨h1, h2⟩ | ⟨h1, h2⟩
    · rw [h1, h2, hFi, hSj]
      simp
    · have hFj : atomSat mol j ringDbFirst = false := by
        rw [atomSat_eq ringDbFirst haj, ringDbFirst, hajring]
        simp
      have hSi : atomSat mol i ringDbSecond = false := by
        rw [atomSat_eq ringDbSecond hai, ringDbSecond, hairing]
        simp
      rw [h1, h2, hFi, hSj, hFj, hSi]
      simp

lemma degree_fix (m : Mol) (i : Nat) : degree (fix_bond_stereo m) i = degree m i := by
  show (m.bonds.map _).countP _ = m.bonds.countP _
  rw [List.countP_map]
  refine List.countP_congr ?_
  intro b _
  by_cases h : b.btype = BondType.double ∧ (degree m b.beginAtom = 1 ∨ degree m b.endAtom = 1)
  · simp only [Function.comp_apply, if_pos h]
  · simp only [Function.comp_apply, if_neg h]

lemma foldl_min_mem : ∀ (xs : List Int) (x : Int), xs.foldl min x = x ∨ xs.foldl min x ∈ xs := by
  intro xs
  induction xs with
  | nil =>
    intro x
    left
    rfl
  | cons a as ih =>
    intro x
    rw [List.foldl_cons]
    rcases ih (min x a) with h | h
    · rcases min_choice x a with hm | hm
      · left
        rw [h, hm]
      · right
        rw [h, hm]
        exact List.mem_cons_self a as
    · right
      exact List.mem_cons_of_mem a h

lemma foldl_min_le :
    ∀ (xs : List Int) (x : Int), xs.foldl min x ≤ x ∧ ∀ y ∈ xs, xs.foldl min x ≤ y := by
  intro xs
  induction xs with
  | nil =>
    intro x
    exact ⟨le_refl x, by simp⟩
  | cons a as ih =>
    intro x
    rw [List.foldl_cons]
    obtain ⟨h1, h2⟩ := ih (min x a)
    refine ⟨le_trans h1 (min_le_left x a), ?_⟩
    intro y hy
    rcases List.mem_cons.mp hy with rfl | hy'
    · exact le_trans h1 (min_le_right x y)
    · exact h2 y hy'

lemma lookup_snd_mem :
    ∀ (d : List (String × Int)) (x : String) (v : Int),
      List.lookup x d = some v → ∃ k, (k, v) ∈ d := by
  intro d
  induction d with
  | nil =>
    intro x v h
    cases h
  | cons kv rest ih =>
    intro x v h
    obtain ⟨k, b⟩ := kv
    cases hxk : (x == k) with
    | true =>
      simp only [List.lookup, hxk] at h
      have hbv : b = v := Option.some.inj h
      exact ⟨k, hbv ▸ List.mem_cons_self (k, b) rest⟩
    | false =>
      simp only [List.lookup, hxk] at h
      obtain ⟨k', hk'⟩ := ih x v h
      exact ⟨k', List.mem_cons_of_mem _ hk'⟩

lemma dictGet_nonneg (d : List (String × Int)) (hd : ∀ kv ∈ d, 0 ≤ kv.2) (x : String) :
    0 ≤ dictGet d x := by
  unfold dictGet
  cases hl : List.lookup x d with
  | none => exact le_refl 0
  | some v =>
    show (0 : Int) ≤ if v = 0 then 0 else v
    by_cases hv : v = 0
    · simp [hv]
    · rw [if_neg hv]
      obtain ⟨k, hk⟩ := lookup_snd_mem d x v hl
      exact hd (k, v) hk

lemma dictGet_absent (d : List (String × Int)) (x : String) (h : List.lookup x d = none) :
    dictGet d x = 0 := by
  unfold dictGet
  rw [h]

/- ### Spec-side pattern for the classifier refinement comparison -/

/-- The first pattern atom as the specification words it: a ring carbon
or a ring heteroatom, where a heteroatom is an atom that is neither
carbon nor hydrogen.  This definition follows the specification text, to
be compared against the coded pattern ringDbFirst. -/
def specRingDbFirst (a : Atom) : Bool :=
  a.inRing && (a.atomicNum == 6 || (!(a.atomicNum == 6) && !(a.atomicNum == 1)))

/-- The protection pattern as the specification words it: a ring carbon
or ring heteroatom double-bonded to a non-ring oxygen, sulfur, carbon or
nitrogen.  Same matching shape as ringDbMatches, with the first pattern
atom taken from the specification text. -/
def specRingDbMatches (mol : Mol) : List (Nat × Nat) :=
  mol.bonds.filterMap fun b =>
    if b.btype = BondType.double then
      if atomSat mol b.beginAtom specRingDbFirst && atomSat mol b.endAtom ringDbSecond then
        some (b.beginAtom, b.endAtom)
      else if atomSat mol b.endAtom specRingDbFirst && atomSat mol b.beginAtom ringDbSecond then
        some (b.endAtom, b.beginAtom)
      else
        none
    else
      none

/- ### Concrete instantiations used by witnesses and counterexamples -/

/-- An identity-flavoured instantiation of the external capabilities:
fragmentation returns the molecule, sanitization always succeeds, the
molecule is its own single connected component, hydrogen removal is the
identity, and serialization is constant. -/
def extId : Externals :=
  { fragmentOnBonds := fun m _ => m
    sanitizeMol := some
    getMolFrags := fun m => [m]
    removeAllHs := id
    molToSmiles := fun _ => "c1ccccc1" }

/-- A single ring carbon, no bonds. -/
def molRingAtom : Mol :=
  { atoms := [{ atomicNum := 6, isotope := 0, inRing := true, atomLabel := none }]
    bonds := [] }

/-- A ring carbon double-bonded to an exocyclic oxygen: a ring carbonyl,
matched by the coded protection pattern. -/
def molCarbonyl : Mol :=
  { atoms := [{ atomicNum := 6, isotope := 0, inRing := true, atomLabel := none },
              { atomicNum := 8, isotope := 0, inRing := false, atomLabel := none }]
    bonds := [{ beginAtom := 0, endAtom := 1, btype := BondType.double, inRing := false,
                stereo := BondStereo.stereoNone, prot := none }] }

/-- A ring nitrogen double-bonded to an exocyclic oxygen: a ring
heteroatom with an exocyclic double bond. -/
def molAmide : Mol :=
  { atoms := [{ atomicNum := 7, isotope := 0, inRing := true, atomLabel := none },
              { atomicNum := 8, isotope := 0, inRing := false, atomLabel := none }]
    bonds := [{ beginAtom := 0, endAtom := 1, btype := BondType.double, inRing := false,
                stereo := BondStereo.stereoNone, prot := none }] }

/-- A dummy (attachment placeholder) atom carrying isotope 3, bonded to a
ring carbon. -/
def molDummy : Mol :=
  { atoms := [{ atomicNum := 0, isotope := 3, inRing := false, atomLabel := none },
              { atomicNum := 6, isotope := 0, inRing := true, atomLabel := none }]
    bonds := [{ beginAtom := 0, endAtom := 1, btype := BondType.single, inRing := false,
                stereo := BondStereo.stereoNone, prot := none }] }

/-- A ring carbon double-bonded to an exocyclic oxygen where the double
bond carries a stereo flag and both ends have degree 1. -/
def molStereo : Mol :=
  { atoms := [{ atomicNum := 6, isotope := 0, inRing := true, atomLabel := none },
              { atomicNum := 8, isotope := 0, inRing := false, atomLabel := none }]
    bonds := [{ beginAtom := 0, endAtom := 1, btype := BondType.double, inRing := false,
                stereo := BondStereo.stereoE, prot := none }] }

/-- The ring system produced from molStereo by the normalization path of
cleanup_fragments under the identity externals. -/
def rsStereo : Mol :=
  { atoms := [{ atomicNum := 6, isotope := 0, inRing := true, atomLabel := none },
              { atomicNum := 8, isotope := 0, inRing := false, atomLabel := none }]
    bonds := [{ beginAtom := 0, endAtom := 1, btype := BondType.double, inRing := false,
                stereo := BondStereo.stereoNone, prot := none }] }

/-- A ring bond whose protected property has never been set. -/
def molPlain : Mol :=
  { atoms := [{ atomicNum := 6, isotope := 0, inRing := true, atomLabel := none },
              { atomicNum := 6, isotope := 0, inRing := true, atomLabel := none }]
    bonds := [{ beginAtom := 0, endAtom := 1, btype := BondType.single, inRing := true,
                stereo := BondStereo.stereoNone, prot := none }] }

/-- A classified (fully tagged) two-bond molecule: an acyclic single bond
and an acyclic double bond. -/
def molTwoBonds : Mol :=
  { atoms := [{ atomicNum := 6, isotope := 0, inRing := true, atomLabel := none },
              { atomicNum := 6, isotope := 0, inRing := false, atomLabel := none },
              { atomicNum := 6, isotope := 0, inRing := false, atomLabel := none }]
    bonds := [{ beginAtom := 0, endAtom := 1, btype := BondType.single, inRing := false,
                stereo := BondStereo.stereoNone, prot := some false },
              { beginAtom := 1, endAtom := 2, btype := BondType.double, inRing := false,
                stereo := BondStereo.stereoNone, prot := some false }] }

/-- A demonstration SMILES parser: the text "ok" parses to the one-ring
molecule, everything else fails to parse. -/
def parseDemo : String → Option Mol :=
  fun s => if s = "ok" then some molRingAtom else none

/-- A demonstration frequency table holding one unrelated key. -/
def tableDemo : List (String × Int) :=
  [("other", 5)]

/- ### Claims -/

/-- C1: on a classified graph (every bond's protected property set), the
cut set computed by cleave_linker_bonds is defined and holds exactly the
indices of the bonds that are simultaneously not in a ring, not
protected, and of single bond order; and when this set is empty,
cleave_linker_bonds returns the input molecule itself, whatever the
external fragmentation and sanitization capabilities do (the
fragmentation primitive is not invoked). -/
theorem c1_cut_set_exact_and_empty_noop (mol : Mol)
    (h : ∀ b ∈ mol.bonds, b.prot.isSome = true) :
    ∃ L, fragBondList mol = some L ∧
      (∀ k, k ∈ L ↔ ∃ b, mol.bonds.get? k = some b ∧
        b.inRing = false ∧ b.prot = some false ∧ b.btype = BondType.single) ∧
      (L = [] → ∀ E : Externals, cleave_linker_bonds E mol = some mol) := by
  obtain ⟨L, hL⟩ := fragAux_total mol.bonds (fun b hb => bondKeep_isSome_of_prot b (h b hb)) 0
  refine ⟨L, hL, ?_, ?_⟩
  · intro k
    rw [fragAux_mem mol.bonds 0 L hL k]
    constructor
    · rintro ⟨j, b, hg, hk, hkeep⟩
      have hkj : k = j := by omega
      subst hkj
      exact ⟨b, hg, (bondKeep_true_iff b).mp hkeep⟩
    · rintro ⟨b, hg, h1, h2, h3⟩
      exact ⟨k, b, hg, by omega, (bondKeep_true_iff b).mpr ⟨h1, h2, h3⟩⟩
  · intro hempty E
    unfold cleave_linker_bonds fragBondList
    rw [hL, hempty]
    simp

/-- Witness for c1_cut_set_exact_and_empty_noop at a concrete classified
molecule. -/
theorem c1_witness :
    (∀ b ∈ molTwoBonds.bonds, b.prot.isSome = true) ∧
      (∃ L, fragBondList molTwoBonds = some L ∧
        (∀ k, k ∈ L ↔ ∃ b, molTwoBonds.bonds.get? k = some b ∧
          b.inRing = false ∧ b.prot = some false ∧ b.btype = BondType.single) ∧
        (L = [] → ∀ E : Externals, cleave_linker_bonds E molTwoBonds = some molTwoBonds)) :=
  ⟨by decide, c1_cut_set_exact_and_empty_noop molTwoBonds (by decide)⟩

/-- C2: a bond pair matched by the protection pattern during
classification is absent from the cut-bond set computed on the classified
molecule: the bond between the matched atoms is never cleaved. -/
theorem c2_protected_bond_not_in_cut_set (mol : Mol) (i j : Nat)
    (hm : (i, j) ∈ ringDbMatches mol) (L : List Nat)
    (hL : fragBondList (tag_bonds_to_preserve mol) = some L)
    (k : Nat) (b : Bond)
    (hk : (tag_bonds_to_preserve mol).bonds.get? k = some b)
    (hc : connects b i j = true) : k ∉ L := by
  intro hkL
  obtain ⟨j', b', hg', hkj, hkeep⟩ := (fragAux_mem _ 0 L hL k).mp hkL
  have hkj' : k = j' := by omega
  subst hkj'
  rw [hk] at hg'
  have hb' : b' = b := (Option.some.inj hg').symm
  rw [hb'] at hkeep
  have hfalse : b.prot = some false := ((bondKeep_true_iff b).mp hkeep).2.1
  rw [tag_bonds mol, List.get?_map] at hk
  cases hg : mol.bonds.get? k with
  | none =>
    rw [hg] at hk
    cases hk
  | some b0 =>
    rw [hg] at hk
    have hb : { b0 with prot := some ((ringDbMatches mol).any fun m => connects b0 m.1 m.2) }
        = b := Option.some.inj hk
    have hc0 : connects b0 i j = true := by
      rw [← hb] at hc
      rwa [connects_protUpdate] at hc
    have hany : ((ringDbMatches mol).any fun m => connects b0 m.1 m.2) = true :=
      List.any_eq_true.mpr ⟨(i, j), hm, hc0⟩
    have hbp : b.prot = some ((ringDbMatches mol).any fun m => connects b0 m.1 m.2) := by
      rw [← hb]
    rw [hbp, hany] at hfalse
    simp at hfalse

/-- Witness for c2_protected_bond_not_in_cut_set on a ring carbonyl. -/
theorem c2_witness :
    ((0, 1) ∈ ringDbMatches molCarbonyl) ∧
      fragBondList (tag_bonds_to_preserve molCarbonyl) = some [] ∧
      (0 : Nat) ∉ ([] : List Nat) :=
  ⟨by decide, by decide,
    c2_protected_bond_not_in_cut_set molCarbonyl 0 1 (by decide) [] (by decide) 0
      { beginAtom := 0, endAtom := 1, btype := BondType.double, inRing := false,
        stereo := BondStereo.stereoNone, prot := some true } (by decide) (by decide)⟩

/-- C3 counterexample: a ring nitrogen (a ring heteroatom) double-bonded
to an exocyclic oxygen is matched by the pattern as the specification
words it, but the coded SMARTS pattern [#6R,#18R]=[OR0,SR0,CR0,NR0]
matches nothing there and the bond is left unprotected. -/
theorem c3_counterexample :
    ((0, 1) ∈ specRingDbMatches molAmide) ∧
      ringDbMatches molAmide = [] ∧
      (tag_bonds_to_preserve molAmide).bonds.map (fun b => b.prot) = [some false] := by
  decide

/-- C3 (amended): the coded protection pattern matches exactly the atom
pairs whose first atom is an in-ring atom of atomic number 6 (carbon) or
18 and whose second atom is a non-ring oxygen, sulfur, carbon or
nitrogen joined to the first by a double bond; and the classifier
initializes every bond's protected flag to false and then holds true
exactly on the bonds joining matched pairs. -/
theorem c3_pattern_exact_and_protection (mol : Mol) (i j : Nat) :
    ((i, j) ∈ ringDbMatches mol ↔
      ∃ b, b ∈ mol.bonds ∧ b.btype = BondType.double ∧
        ((b.beginAtom = i ∧ b.endAtom = j) ∨ (b.beginAtom = j ∧ b.endAtom = i)) ∧
        (∃ a, mol.atoms.get? i = some a ∧ a.inRing = true ∧
          (a.atomicNum = 6 ∨ a.atomicNum = 18)) ∧
        (∃ a, mol.atoms.get? j = some a ∧ a.inRing = false ∧
          (a.atomicNum = 8 ∨ a.atomicNum = 16 ∨ a.atomicNum = 6 ∨ a.atomicNum = 7))) ∧
      (tag_bonds_to_preserve mol).bonds =
        mol.bonds.map fun b =>
          { b with prot := some ((ringDbMatches mol).any fun m => connects b m.1 m.2) } :=
  ⟨ringDbMatches_mem mol i j, tag_bonds mol⟩

lemma build_ring_list_none (E : Externals) (parse : String → Option Mol) (smi : String)
    (hsmi : parse smi = none) :
    ∀ corpus, smi ∈ corpus → build_ring_list E parse corpus = none := by
  intro corpus
  induction corpus with
  | nil =>
    intro h
    cases h
  | cons s rest ih =>
    intro hmem
    rcases List.mem_cons.mp hmem with rfl | hmem'
    · unfold build_ring_list
      rw [hsmi]
      rfl
    · unfold build_ring_list
      cases hp : parse s with
      | none => rfl
      | some mol =>
        simp only [Option.some_bind]
        cases hrst : ring_system_texts E mol with
        | none => rfl
        | some ss =>
          simp only [Option.some_bind]
          rw [ih hmem']
          rfl

/-- C4 (amended): an unparseable corpus entry is not skipped: whenever
any entry of the corpus fails to parse, the frequency-table construction
of create_ring_dictionary aborts, yielding none for the whole corpus. -/
theorem c4_parse_failure_aborts (E : Externals) (parse : String → Option Mol)
    (corpus : List String) (smi : String) (hmem : smi ∈ corpus)
    (hsmi : parse smi = none) :
    create_ring_dictionary E parse corpus = none := by
  unfold create_ring_dictionary
  rw [build_ring_list_none E parse smi hsmi corpus hmem]
  rfl

/-- C4 counterexample: a corpus whose entry "bad" fails to parse makes
the whole construction abort with none, although the well-formed entry
alone builds a one-row table: the malformed entry is not skipped and
does abort the batch. -/
theorem c4_counterexample :
    parseDemo "bad" = none ∧
      create_ring_dictionary extId parseDemo ["ok", "bad"] = none ∧
      create_ring_dictionary extId parseDemo ["ok"] = some [("c1ccccc1", 1)] := by
  decide

/-- Witness for c4_parse_failure_aborts at a concrete corpus. -/
theorem c4_witness :
    ("bad" ∈ ["ok", "bad"]) ∧ parseDemo "bad" = none ∧
      create_ring_dictionary extId parseDemo ["ok", "bad"] = none :=
  ⟨by decide, by decide,
    c4_parse_failure_aborts extId parseDemo ["ok", "bad"] "bad" (by decide) (by decide)⟩

/-- C5: process_smiles answers the empty list (not an exception) when the
SMILES fails to parse; otherwise it pairs every found ring-system string
with its table count, a key absent from the table contributing count 0
rather than an error. -/
theorem c5_query_parse_failure_empty_and_zero_default
    (E : Externals) (parse : String → Option Mol) (d : List (String × Int)) (smi : String) :
    (parse smi = none → process_smiles E parse d smi = some []) ∧
    (∀ mol ss, parse smi = some mol →
      find_ring_systems E mol false false = some (Sum.inr ss) →
      process_smiles E parse d smi = some (ss.map fun x => (x, dictGet d x)) ∧
      ∀ x, List.lookup x d = none → dictGet d x = 0) := by
  constructor
  · intro hp
    simp only [process_smiles, process_mol, hp]
  · intro mol ss hp hf
    refine ⟨?_, fun x hx => dictGet_absent d x hx⟩
    have hrst : ring_system_texts E mol = some ss := by
      unfold ring_system_texts
      rw [hf]
    simp only [process_smiles, process_mol, hp, hrst]
    rfl

/-- Witness for c5_query_parse_failure_empty_and_zero_default on a
parse failure and on a parsed molecule whose single ring system is
absent from the table. -/
theorem c5_witness :
    process_smiles extId parseDemo tableDemo "bad" = some [] ∧
      process_smiles extId parseDemo tableDemo "ok" =
        some (["c1ccccc1"].map fun x => (x, dictGet tableDemo x)) :=
  ⟨(c5_query_parse_failure_empty_and_zero_default extId parseDemo tableDemo "bad").1
      (by decide),
    ((c5_query_parse_failure_empty_and_zero_default extId parseDemo tableDemo "ok").2
      molRingAtom ["c1ccccc1"] (by decide) (by decide)).1⟩

/-- C6: over a table of non-negative counts, when the query succeeds with
frequency list fl, min_count yields the sentinel -1 exactly when fl is
empty, and on a nonempty fl yields the minimum count: a member of the
count list that bounds it below (so a lone table-absent ring system gives
0, distinguishable from the sentinel). -/
theorem c6_min_count_sentinel_or_minimum
    (E : Externals) (parse : String → Option Mol) (d : List (String × Int)) (smi : String)
    (fl : List (String × Int)) (hfl : process_smiles E parse d smi = some fl)
    (hd : ∀ kv ∈ d, 0 ≤ kv.2) :
    (min_count E parse d smi = some (-1) ↔ fl = []) ∧
    (∀ p ps, fl = p :: ps →
      ∃ m, min_count E parse d smi = some m ∧ m ∈ fl.map Prod.snd ∧
        ∀ c ∈ fl.map Prod.snd, m ≤ c) := by
  have hmc : min_count E parse d smi
      = some (if fl.length ≠ 0 then pyMin (fl.map Prod.snd) else -1) := by
    unfold min_count
    rw [hfl]
    rfl
  have hnn : ∀ c ∈ fl.map Prod.snd, 0 ≤ c := by
    intro c hc
    simp only [process_smiles, process_mol] at hfl
    cases hp : parse smi with
    | none =>
      rw [hp] at hfl
      have hfl2 : fl = [] := by
        have h' : (some [] : Option (List (String × Int))) = some fl := hfl
        exact (Option.some.inj h').symm
      subst hfl2
      simp at hc
    | some mol =>
      rw [hp] at hfl
      have hfl' : (ring_system_texts E mol).map
          (fun ss => ss.map fun x => (x, dictGet d x)) = some fl := hfl
      cases hrst : ring_system_texts E mol with
      | none =>
        rw [hrst] at hfl'
        simp at hfl'
      | some ss =>
        rw [hrst] at hfl'
        have hfl2 : fl = ss.map fun x => (x, dictGet d x) := by
          have h' : some (ss.map fun x => (x, dictGet d x)) = some fl := hfl'
          exact (Option.some.inj h').symm
        subst hfl2
        rw [List.map_map] at hc
        obtain ⟨x, hx, hxc⟩ := List.mem_map.mp hc
        rw [← hxc]
        exact dictGet_nonneg d hd x
  constructor
  · rw [hmc]
    constructor
    · intro h
      have hval := Option.some.inj h
      cases fl with
      | nil => rfl
      | cons p ps =>
        exfalso
        have hlen : (p :: ps).length ≠ 0 := by simp
        rw [if_pos hlen] at hval
        have hmem : pyMin ((p :: ps).map Prod.snd) ∈ (p :: ps).map Prod.snd := by
          rw [List.map_cons]
          show (ps.map Prod.snd).foldl min p.2 ∈ p.2 :: ps.map Prod.snd
          rcases foldl_min_mem (ps.map Prod.snd) p.2 with h1 | h1
          · rw [h1]
            exact List.mem_cons_self _ _
          · exact List.mem_cons_of_mem _ h1
        have h0 := hnn _ hmem
        rw [hval] at h0
        omega
    · intro h
      subst h
      simp
  · intro p ps hcons
    subst hcons
    have hlen : (p :: ps).length ≠ 0 := by simp
    refine ⟨pyMin ((p :: ps).map Prod.snd), by rw [hmc, if_pos hlen], ?_, ?_⟩
    · rw [List.map_cons]
      show (ps.map Prod.snd).foldl min p.2 ∈ p.2 :: ps.map Prod.snd
      rcases foldl_min_mem (ps.map Prod.snd) p.2 with h1 | h1
      · rw [h1]
        exact List.mem_cons_self _ _
      · exact List.mem_cons_of_mem _ h1
    · intro c hc
      rw [List.map_cons] at hc
      obtain ⟨hle1, hle2⟩ := foldl_min_le (ps.map Prod.snd) p.2
      show (ps.map Prod.snd).foldl min p.2 ≤ c
      rcases List.mem_cons.mp hc with rfl | hc'
      · exact hle1
      · exact hle2 c hc'

/-- Witness for c6_min_count_sentinel_or_minimum: the demonstration
molecule has exactly one ring system, absent from the table, so its
frequency list is the singleton with count 0. -/
theorem c6_witness :
    (min_count extId parseDemo tableDemo "ok" = some (-1) ↔
        ([(("c1ccccc1" : String), (0 : Int))] : List (String × Int)) = []) ∧
      (∀ p ps, ([(("c1ccccc1" : String), (0 : Int))] : List (String × Int)) = p :: ps →
        ∃ m, min_count extId parseDemo tableDemo "ok" = some m ∧
          m ∈ ([(("c1ccccc1" : String), (0 : Int))] : List (String × Int)).map Prod.snd ∧
          ∀ c ∈ ([(("c1ccccc1" : String), (0 : Int))] : List (String × Int)).map Prod.snd,
            m ≤ c) :=
  c6_min_count_sentinel_or_minimum extId parseDemo tableDemo "ok"
    [("c1ccccc1", 0)] (by decide) (by decide)

/-- C7: every ring system returned by the normalization step satisfies
the stereo invariant: a double bond one of whose end atoms has degree 1
carries stereo designation none, whatever the external fragment-splitting
and hydrogen-removal capabilities produced. -/
theorem c7_no_stereo_double_bond_with_degree_one_end
    (E : Externals) (kd : Bool) (mol rs : Mol) (b : Bond)
    (hrs : rs ∈ cleanup_fragments E kd mol) (hb : b ∈ rs.bonds)
    (hdouble : b.btype = BondType.double)
    (hdeg : degree rs b.beginAtom = 1 ∨ degree rs b.endAtom = 1) :
    b.stereo = BondStereo.stereoNone := by
  unfold cleanup_fragments at hrs
  obtain ⟨frag, hfrag, hrseq⟩ := List.mem_map.mp hrs
  subst hrseq
  obtain ⟨b0, hb0, hbeq⟩ := List.mem_map.mp hb
  by_cases hcond : b0.btype = BondType.double ∧
      (degree (E.removeAllHs (process_dummy_atoms kd frag)) b0.beginAtom = 1 ∨
       degree (E.removeAllHs (process_dummy_atoms kd frag)) b0.endAtom = 1)
  · rw [if_pos hcond] at hbeq
    rw [← hbeq]
  · rw [if_neg hcond] at hbeq
    exfalso
    apply hcond
    rw [hbeq]
    refine ⟨hdouble, ?_⟩
    simp only [degree_fix] at hdeg
    exact hdeg

/-- Witness for c7_no_stereo_double_bond_with_degree_one_end on a ring
carbonyl whose double bond carried a stereo flag before normalization. -/
theorem c7_witness :
    (rsStereo ∈ cleanup_fragments extId false molStereo) ∧
      ({ beginAtom := 0, endAtom := 1, btype := BondType.double, inRing := false,
         stereo := BondStereo.stereoNone, prot := none } : Bond).stereo
        = BondStereo.stereoNone :=
  ⟨by decide,
    c7_no_stereo_double_bond_with_degree_one_end extId false molStereo rsStereo
      { beginAtom := 0, endAtom := 1, btype := BondType.double, inRing := false,
        stereo := BondStereo.stereoNone, prot := none }
      (by decide) (by decide) (by decide) (by decide)⟩

/-- C8 counterexample: with keep_dummy requested, normalization of a
fragment holding a placeholder atom of isotope 3 relabels the atom with
the attachment label but also clears its isotope to 0: the isotope tag is
not left unchanged. -/
theorem c8_counterexample :
    molDummy.atoms.map (fun a => a.isotope) = [3, 0] ∧
      (cleanup_fragments extId true molDummy).map (fun m => m.atoms.map fun a => a.isotope)
        = [[0, 0]] ∧
      (cleanup_fragments extId true molDummy).map (fun m => m.atoms.map fun a => a.atomLabel)
        = [[some "R", none]] := by
  decide

/-- C8 (amended): the dummy-atom resolution step leaves non-placeholder
atoms untouched; a placeholder atom always has its isotope cleared to 0,
and in addition is relabelled with the attachment-point label "R" with
atomic identity unchanged when keep_dummy holds, or converted to hydrogen
with its display label unchanged otherwise. -/
theorem c8_dummy_resolution (kd : Bool) (m : Mol) (k : Nat) (a : Atom)
    (hg : m.atoms.get? k = some a) :
    ∃ a', (process_dummy_atoms kd m).atoms.get? k = some a' ∧
      (a.atomicNum ≠ 0 → a' = a) ∧
      (a.atomicNum = 0 → a'.isotope = 0 ∧
        (kd = true → a'.atomicNum = a.atomicNum ∧ a'.atomLabel = some "R") ∧
        (kd = false → a'.atomicNum = 1 ∧ a'.atomLabel = a.atomLabel)) := by
  refine ⟨if a.atomicNum == 0 then
      (if kd then { a with atomLabel := some "R", isotope := 0 }
       else { a with atomicNum := 1, isotope := 0 })
    else a, ?_, ?_, ?_⟩
  · show (m.atoms.map fun a =>
        if a.atomicNum == 0 then
          if kd then { a with atomLabel := some "R", isotope := 0 }
          else { a with atomicNum := 1, isotope := 0 }
        else a).get? k = _
    rw [List.get?_map, hg]
    rfl
  · intro hne
    simp [hne]
  · intro heq
    cases kd <;> simp [heq]

/-- Witness for c8_dummy_resolution at the placeholder atom of the
concrete fragment. -/
theorem c8_witness :
    molDummy.atoms.get? 0
        = some { atomicNum := 0, isotope := 3, inRing := false, atomLabel := none } ∧
      (∃ a', (process_dummy_atoms true molDummy).atoms.get? 0 = some a' ∧
        (({ atomicNum := 0, isotope := 3, inRing := false, atomLabel := none } : Atom).atomicNum
            ≠ 0 →
          a' = { atomicNum := 0, isotope := 3, inRing := false, atomLabel := none }) ∧
        (({ atomicNum := 0, isotope := 3, inRing := false, atomLabel := none } : Atom).atomicNum
            = 0 →
          a'.isotope = 0 ∧
          (true = true →
            a'.atomicNum
                = ({ atomicNum := 0, isotope := 3, inRing := false,
                     atomLabel := none } : Atom).atomicNum ∧
              a'.atomLabel = some "R") ∧
          (true = false → a'.atomicNum = 1 ∧
            a'.atomLabel
              = ({ atomicNum := 0, isotope := 3, inRing := false,
                   atomLabel := none } : Atom).atomLabel))) :=
  ⟨by decide,
    c8_dummy_resolution true molDummy 0
      { atomicNum := 0, isotope := 3, inRing := false, atomLabel := none } (by decide)⟩

/-- C9 counterexample: with both flags at their defaults, find_ring_systems
returns the serialized SMILES branch, not the branch holding the
RingSystem molecules themselves. -/
theorem c9_counterexample :
    (find_ring_systems extId molRingAtom false false).map Sum.isLeft = some false ∧
      find_ring_systems extId molRingAtom false false = some (Sum.inr ["c1ccccc1"]) := by
  decide

/-- C9 (amended): find_ring_systems returns the RingSystem molecules
themselves exactly when as_mols is set true; with as_mols at its default
false (the default of every caller in the module) it returns the same
molecules mapped through the canonical serialization capability. -/
theorem c9_as_mols_selects_objects (E : Externals) (mol : Mol) (kd : Bool) :
    find_ring_systems E mol kd true = (ring_systems_pipeline E mol kd).map Sum.inl ∧
      find_ring_systems E mol kd false =
        (ring_systems_pipeline E mol kd).map fun ms => Sum.inr (ms.map E.molToSmiles) := by
  constructor <;>
  · simp only [find_ring_systems, find_ring_systems_run, ring_systems_pipeline]
    cases h : cleave_linker_bonds E (tag_bonds_to_preserve mol) <;> simp

/-- C10 counterexample: running find_ring_systems leaves the caller's
molecule with every bond's protected property written, so a molecule
whose bond had the property unset is changed by the call. -/
theorem c10_counterexample :
    (find_ring_systems_run extId molPlain false false).2 ≠ molPlain := by
  decide

/-- C10 (amended): find_ring_systems changes the caller's molecule only
in the transient per-bond protected property (the atom list and every
other bond field are untouched), and it carries no mutable state from one
invocation into the next: rerunning the pipeline on the mutated input
returns the same value and the same final state. -/
theorem c10_mutation_confined_and_no_carryover (E : Externals) (mol : Mol) (kd am : Bool) :
    ((find_ring_systems_run E mol kd am).2).atoms = mol.atoms ∧
      ((find_ring_systems_run E mol kd am).2).bonds.map eraseProt
        = mol.bonds.map eraseProt ∧
      find_ring_systems_run E ((find_ring_systems_run E mol kd am).2) kd am
        = find_ring_systems_run E mol kd am := by
  have h2 : (find_ring_systems_run E mol kd am).2 = tag_bonds_to_preserve mol := rfl
  refine ⟨?_, ?_, ?_⟩
  · rw [h2, tag_atoms]
  · rw [h2, tag_bonds mol, List.map_map]
    refine List.map_congr_left ?_
    intro b _
    rfl
  · rw [h2]
    simp only [find_ring_systems_run, tag_idem]
